import Mathlib

/-!
# Verification of the `null` Go library (tri-state containers and recursive filtering)

This file gives a shallow embedding of the library's two components and proves
properties about them:

* `Var` models the generic tri-state container `Var[T]` from `null.go`
  (fields `set`, `valid`, `value`) together with its operations
  `Set`, `Unset`, `SetNil`, `MarshalJSON`, `UnmarshalJSON`, `Scan`.
* `Value` is a universe of Go runtime values as seen by the reflective
  filtering engine in `filter.go`: scalars, `nil`, values of map kind
  (`map[string]any` and other map types), tri-state containers viewed through
  the internal `nullVar` interface, and struct values with their field lists.
* `filterMap`, `filterStructFields`/`stepField`, `FilterStruct`, `FilterMap`
  are direct translations of `filterMap`, `filterStruct`, `FilterStruct`,
  `FilterMap` from `filter.go`.

Go maps are modelled as association lists (`List (String × Value)`); a Go map
always has pairwise distinct keys, which theorems assume through
`List.Nodup` hypotheses where the distinction matters.  Map assignment
`m[k] = v` is `insertKV` (replace or append), map indexing is `lookupKV`.

Reflection is modelled by storing on each struct field exactly the data the
engine reads from `reflect`: the exported flag (`CanInterface`), the
`Anonymous` flag, the struct-tag table (`Tag.Lookup`), the field's declared
kind (`Type.Kind()`), and the field's runtime value.  Whether a value
implements the `Filterable` marker interface is recorded on struct values as
a boolean, and values implementing the internal `nullVar` interface are the
`vNullVar` values; `Var[T]` itself does not implement `Filterable`.
-/

namespace GoNull

/-- Runtime kinds distinguished by the engine: `reflect.Struct`,
`reflect.Map`, and everything else (scalars, slices, pointers, interfaces). -/
inductive FKind where
  | kStruct
  | kMap
  | kOther
deriving DecidableEq

mutual

/-- A Go runtime value as classified by the filtering engine's type switches.
`vNullVar set valid payload` is a value implementing the internal `nullVar`
interface (a `Var[T]`, whose runtime kind is `reflect.Struct`); `vMap` is a
`map[string]any`; `vOtherMap` is a value of map kind that is not a
`map[string]any`; `vStruct filterable fields` is a struct value, with
`filterable` recording whether its type implements the `Filterable` marker
interface; `vOther` stands for any other opaque value (identified by a tag so
that distinct opaque values stay distinct). -/
inductive Value where
  | vNull : Value
  | vStr : String → Value
  | vInt : Int → Value
  | vBool : Bool → Value
  | vOther : Nat → Value
  | vOtherMap : Nat → Value
  | vNullVar : Bool → Bool → Value → Value
  | vMap : List (String × Value) → Value
  | vStruct : Bool → List Field → Value

/-- A struct field as the engine reads it off `reflect`:
`mk exported anonymous tags declaredKind value` where `exported` is
`CanInterface`, `anonymous` is `StructField.Anonymous`, `tags` is the
struct-tag table consulted by `Tag.Lookup`, `declaredKind` is
`StructField.Type.Kind()` and `value` is `Value.Field(i).Interface()`. -/
inductive Field where
  | mk : Bool → Bool → List (String × String) → FKind → Value → Field

end

/-- The output and input mapping type of the engine (`map[string]any`). -/
abbrev SMap := List (String × Value)

def Field.exported : Field → Bool
  | .mk e _ _ _ _ => e

def Field.anonymous : Field → Bool
  | .mk _ a _ _ _ => a

def Field.tags : Field → List (String × String)
  | .mk _ _ t _ _ => t

def Field.fkind : Field → FKind
  | .mk _ _ _ k _ => k

def Field.value : Field → Value
  | .mk _ _ _ _ v => v

/-- Runtime kind of a value (`reflect.TypeOf(v).Kind()` collapsed to the three
cases the engine distinguishes).  A `Var[T]` is a struct. -/
def Value.kind : Value → FKind
  | .vStruct _ _ => .kStruct
  | .vNullVar _ _ _ => .kStruct
  | .vMap _ => .kMap
  | .vOtherMap _ => .kMap
  | _ => .kOther

/-- `Var.getVal` from `null.go`: the effective value exposed through the
`nullVar` interface — `nil` when the container is not set or not valid,
otherwise the payload. -/
def getVal (set valid : Bool) (payload : Value) : Value :=
  if !set || !valid then .vNull else payload

/-- Struct-tag lookup, `StructField.Tag.Lookup(tag)`. -/
def tagLookup : List (String × String) → String → Option String
  | [], _ => none
  | (k, v) :: rest, t => if k = t then some v else tagLookup rest t

/-- Characters of a tag value up to the first comma. -/
def headSplitAux : List Char → List Char
  | [] => []
  | c :: cs => if c = ',' then [] else c :: headSplitAux cs

/-- First segment of `strings.Split(s, ",")`, used to extract the output key
from a tag value (`tagOpts[0]`): the prefix of `s` up to the first comma
(`strings.Split` never returns an empty slice, and its first element is
exactly this prefix). -/
def headSplit (s : String) : String :=
  String.mk (headSplitAux s.data)

/-- Go map assignment `m[k] = v` on the association-list model: replace the
binding of `k` if present, otherwise append it. -/
def insertKV : SMap → String → Value → SMap
  | [], k, v => [(k, v)]
  | (k', v') :: rest, k, v =>
    if k' = k then (k, v) :: rest else (k', v') :: insertKV rest k v

/-- Go map indexing `m[k]` on the association-list model. -/
def lookupKV : SMap → String → Option Value
  | [], _ => none
  | (k', v') :: rest, k => if k' = k then some v' else lookupKV rest k

/-- Go comma-ok map membership `_, ok := m[k]`. -/
def containsKey (m : SMap) (k : String) : Bool :=
  (lookupKV m k).isSome

/-- The embedded-field merge loop of `filterStruct` (filter.go:154-158):
copy every entry of `fs` into `acc` whose key is not already present. -/
def mergeAbsent : SMap → SMap → SMap
  | acc, [] => acc
  | acc, (k, v) :: rest =>
    mergeAbsent (if containsKey acc k then acc else insertKV acc k v) rest

/-- `filterMap` from filter.go:67-89: drop unset containers, unwrap set ones
to their effective value, recursively filter nested `map[string]any` values
dropping those that filter to empty, and copy everything else verbatim. -/
def filterMap : SMap → SMap
  | [] => []
  | (k, v) :: rest =>
    match v with
    | .vNullVar s va p =>
      if s then (k, getVal s va p) :: filterMap rest else filterMap rest
    | .vMap mm =>
      let mm' := filterMap mm
      if mm'.isEmpty then filterMap rest else (k, .vMap mm') :: filterMap rest
    | _ => (k, v) :: filterMap rest
termination_by m => sizeOf m

mutual

/-- The field loop of `filterStruct` (filter.go:111-198), processing the
fields in declaration order starting from the accumulated output `acc`. -/
def filterStructFields (tag : String) : List Field → SMap → SMap
  | [], acc => acc
  | f :: rest, acc => filterStructFields tag rest (stepField tag acc f)
termination_by fs _ => sizeOf fs

/-- The body of the field loop of `filterStruct` (filter.go:113-197): skip
unexported fields, fields without the configured tag (unless embedded), and
fields whose resolved key is `-`, or empty while the field is not an
embedded struct; then dispatch on the declared kind and on which capability
the runtime value implements. -/
def stepField (tag : String) (acc : SMap) : Field → SMap
  | .mk ex an tags fk v =>
    if ex = false then acc
    else if tagLookup tags tag = none ∧ an = false then acc
    else
      let fieldName := headSplit ((tagLookup tags tag).getD "")
      if fieldName = "-" ∨ (fieldName = "" ∧ an = false) ∨
          (fieldName = "" ∧ an = true ∧ fk ≠ FKind.kStruct) then acc
      else
        match fk, v with
        | .kStruct, .vStruct true inner =>
          let fs := filterStructFields tag inner []
          if an = true ∧ fieldName = "" then mergeAbsent acc fs
          else if fs.isEmpty then acc
          else insertKV acc fieldName (.vMap fs)
        | .kStruct, .vNullVar s va p =>
          if s then insertKV acc fieldName (getVal s va p) else acc
        | .kStruct, v => if fieldName ≠ "" then insertKV acc fieldName v else acc
        | .kMap, .vMap mm =>
          let fm := filterMap mm
          if fm.isEmpty then acc else insertKV acc fieldName (.vMap fm)
        | .kMap, v => insertKV acc fieldName v
        | .kOther, v => insertKV acc fieldName v
termination_by f => sizeOf f

end

/-- `filterStruct` from filter.go:103-201 on a runtime value.  It is only
reached with struct-kind values; a `Var[T]` has only unexported fields, so
it yields the empty map, as does any other non-`vStruct` value. -/
def filterStruct (tag : String) : Value → SMap
  | .vStruct _ fields => filterStructFields tag fields []
  | _ => []

/-- The option record of the engine (`filterOpts`). -/
structure FilterOpts where
  tag : String

/-- `defaultFilterOpts`: the default tag is the canonical `json` tag. -/
def defaultFilterOpts : FilterOpts := FilterOpts.mk "json"

/-- `UseTag` from filter.go:25-33: an empty tag name yields the identity
option (keep the default), a non-empty one overrides the tag. -/
def UseTag (tag : String) : FilterOpts → FilterOpts :=
  if tag = "" then fun f => f
  else fun _ => FilterOpts.mk tag

/-- Application of the option list to the defaults (filter.go:47-50). -/
def applyOpts (opts : List (FilterOpts → FilterOpts)) : FilterOpts :=
  opts.foldl (fun acc opt => opt acc) defaultFilterOpts

/-- The two error conditions of the public entry points:
`errors.New("input cannot be nil")` and the "input must be a struct" error. -/
inductive FilterError where
  | nilInput
  | notAStruct
deriving DecidableEq

/-- `FilterStruct` from filter.go:36-54.  The absent (`nil`) interface value
is `none`; validation of nil and kind happens before any filtering. -/
def FilterStruct (s : Option Value) (opts : List (FilterOpts → FilterOpts)) :
    Except FilterError SMap :=
  match s with
  | none => .error .nilInput
  | some v =>
    if v.kind ≠ FKind.kStruct then .error .notAStruct
    else .ok (filterStruct (applyOpts opts).tag v)

/-- `FilterMap` from filter.go:57-63.  A nil map is `none`. -/
def FilterMap (m : Option SMap) : Except FilterError SMap :=
  match m with
  | none => .error .nilInput
  | some mm => .ok (filterMap mm)

/-! ## Fuel-indexed versions of the recursive engine

`filterMapFuel` and `filterStructFieldsFuel`/`stepFieldFuel` run exactly the
algorithms above but consume one unit of fuel on every recursive call,
returning `none` when the fuel is exhausted.  They witness termination of the
engine: on every finite input the structural size bounds the fuel needed,
because each recursive call descends strictly into a sub-entry (a nested
mapping) or a sub-field (an embedded or nested struct's field list). -/

/-- Fuel-indexed `filterMap`. -/
def filterMapFuel : Nat → SMap → Option SMap
  | 0, _ => none
  | _ + 1, [] => some []
  | fuel + 1, (k, v) :: rest =>
    match v with
    | .vNullVar s va p =>
      (filterMapFuel fuel rest).map (fun t =>
        if s then (k, getVal s va p) :: t else t)
    | .vMap mm =>
      (filterMapFuel fuel mm).bind (fun mm' =>
        (filterMapFuel fuel rest).map (fun t =>
          if mm'.isEmpty then t else (k, .vMap mm') :: t))
    | _ => (filterMapFuel fuel rest).map (fun t => (k, v) :: t)

mutual

/-- Fuel-indexed field loop of `filterStruct`. -/
def filterStructFieldsFuel : Nat → String → List Field → SMap → Option SMap
  | 0, _, _, _ => none
  | _ + 1, _, [], acc => some acc
  | fuel + 1, tag, f :: rest, acc =>
    (stepFieldFuel fuel tag acc f).bind (filterStructFieldsFuel fuel tag rest)

/-- Fuel-indexed loop body of `filterStruct`. -/
def stepFieldFuel : Nat → String → SMap → Field → Option SMap
  | 0, _, _, _ => none
  | fuel + 1, tag, acc, .mk ex an tags fk v =>
    if ex = false then some acc
    else if tagLookup tags tag = none ∧ an = false then some acc
    else
      let fieldName := headSplit ((tagLookup tags tag).getD "")
      if fieldName = "-" ∨ (fieldName = "" ∧ an = false) ∨
          (fieldName = "" ∧ an = true ∧ fk ≠ FKind.kStruct) then some acc
      else
        match fk, v with
        | .kStruct, .vStruct true inner =>
          (filterStructFieldsFuel fuel tag inner []).map (fun fs =>
            if an = true ∧ fieldName = "" then mergeAbsent acc fs
            else if fs.isEmpty then acc
            else insertKV acc fieldName (.vMap fs))
        | .kStruct, .vNullVar s va p =>
          some (if s then insertKV acc fieldName (getVal s va p) else acc)
        | .kStruct, v => some (if fieldName ≠ "" then insertKV acc fieldName v else acc)
        | .kMap, .vMap mm =>
          (filterMapFuel fuel mm).map (fun fm =>
            if fm.isEmpty then acc else insertKV acc fieldName (.vMap fm))
        | .kMap, v => some (insertKV acc fieldName v)
        | .kOther, v => some (insertKV acc fieldName v)

end

/-! ## The tri-state container `Var[T]` (null.go)

The container itself is generic.  The JSON collaborator is abstracted by a
type `D` of wire representations carrying the distinguished `null` literal,
an encoder and a (fallible) decoder; the SQL collaborator by an optional
source value (`nil` is `none`) and the fallible coercion `convertAssign`. -/

/-- The tri-state container `Var[T]` (null.go:11-15). -/
structure Var (α : Type) where
  set : Bool
  valid : Bool
  value : α

/-- `Var.Set` (null.go:35-39). -/
def Var.Set {α : Type} (_ : Var α) (x : α) : Var α :=
  Var.mk true true x

/-- `Var.Unset` (null.go:42-47): reset to the zero value of the payload type. -/
def Var.Unset {α : Type} [Inhabited α] (_ : Var α) : Var α :=
  Var.mk false false default

/-- `Var.SetNil` (null.go:50-55): explicitly null, payload reset to zero. -/
def Var.SetNil {α : Type} [Inhabited α] (_ : Var α) : Var α :=
  Var.mk true false default

/-- `Var.Val` (null.go:58-60). -/
def Var.Val {α : Type} (v : Var α) : α :=
  v.value

/-- `Var.IsSet` (null.go:63-65). -/
def Var.IsSet {α : Type} (v : Var α) : Bool :=
  v.set

/-- `Var.Valid` (null.go:68-70). -/
def Var.Valid {α : Type} (v : Var α) : Bool :=
  v.valid

/-- `Var.MarshalJSON` (null.go:73-79): the `null` literal when the container
is not valid or not set, otherwise the encoding of the payload (`enc` stands
for `json.Marshal` at the payload type). -/
def Var.MarshalJSON {α D : Type} (enc : α → D) (nullBytes : D) (v : Var α) : D :=
  if !v.valid || !v.set then nullBytes else enc v.value

/-- `Var.UnmarshalJSON` (null.go:82-94): mark set and reset the payload to
zero; on the `null` literal mark invalid, otherwise mark valid and decode
into the payload, propagating a decode failure (`dec` stands for
`json.Unmarshal` at the payload type; on failure the payload is whatever the
decoder left behind, starting from the zero value, modelled here as the zero
value). -/
def Var.UnmarshalJSON {α D E : Type} [Inhabited α] [DecidableEq D]
    (nullBytes : D) (dec : D → Except E α) (_ : Var α) (data : D) :
    Var α × Option E :=
  if data = nullBytes then (Var.mk true false default, none)
  else
    match dec data with
    | .ok x => (Var.mk true true x, none)
    | .error e => (Var.mk true true default, some e)

/-- `Var.Scan` (null.go:111-122): mark set; on a `nil` source mark invalid
and reset the payload to zero, otherwise mark valid and coerce the source
into the payload via `convertAssign`, propagating a coercion failure (on
failure the payload keeps its previous value). -/
def Var.Scan {α β E : Type} [Inhabited α]
    (convertAssign : β → Except E α) (v : Var α) (src : Option β) :
    Var α × Option E :=
  match src with
  | none => (Var.mk true false default, none)
  | some s =>
    match convertAssign s with
    | .ok x => (Var.mk true true x, none)
    | .error e => (Var.mk true true v.value, some e)

/-- The tri-state invariant (spec §3): an unset container is invalid and
holds the zero payload; a set-but-invalid container holds the zero payload;
a set-and-valid container holds the live payload (no constraint beyond the
flags). -/
def Var.invariant {α : Type} [Inhabited α] (v : Var α) : Prop :=
  (v.set = false → v.valid = false ∧ v.value = default) ∧
  (v.set = true → v.valid = false → v.value = default)

/-- A payload is flat when unwrapping it does not expose another value the
map filter would act on: it is neither a container nor a `map[string]any`. -/
def flatPayload : Value → Bool
  | .vNullVar _ _ _ => false
  | .vMap _ => false
  | _ => true

/-- Every container reachable through the mapping's entries (recursively
through nested `map[string]any` values) that is set and valid has a flat
payload.  Outputs of `filterMap` on such mappings contain no containers and
no empty nested mappings. -/
def containersFlat : SMap → Bool
  | [] => true
  | (_, v) :: rest =>
    (match v with
     | .vNullVar s va p => !(s && va) || flatPayload p
     | .vMap mm => containersFlat mm
     | _ => true) && containersFlat rest
termination_by m => sizeOf m

/-- JSON encoding of an optional-integer payload (a Go `*int` payload under
`json.Marshal`): a nil pointer encodes to the `null` literal itself. -/
def encOptInt : Option Int → String
  | none => "null"
  | some n => toString n

/-! ## Lemmas about the association-list map model -/

lemma lookupKV_insertKV_self (m : SMap) (k : String) (v : Value) :
    lookupKV (insertKV m k v) k = some v := by
  induction m with
  | nil => simp [insertKV, lookupKV]
  | cons hd rest ih =>
    obtain ⟨k', v'⟩ := hd
    by_cases h : k' = k <;> simp [insertKV, lookupKV, h, ih]

lemma lookupKV_insertKV_ne (m : SMap) (k : String) (v : Value) (k' : String)
    (h : k ≠ k') : lookupKV (insertKV m k v) k' = lookupKV m k' := by
  induction m with
  | nil => simp [insertKV, lookupKV, h]
  | cons hd rest ih =>
    obtain ⟨k₀, v₀⟩ := hd
    by_cases h₀ : k₀ = k
    · subst h₀
      rw [insertKV, if_pos rfl, lookupKV, lookupKV, if_neg h, if_neg h]
    · rw [insertKV, if_neg h₀, lookupKV, lookupKV]
      by_cases h₁ : k₀ = k'
      · rw [if_pos h₁, if_pos h₁]
      · rw [if_neg h₁, if_neg h₁, ih]

lemma lookupKV_eq_none_of_not_mem_keys (m : SMap) (k : String)
    (h : k ∉ m.map Prod.fst) : lookupKV m k = none := by
  induction m with
  | nil => rfl
  | cons hd rest ih =>
    obtain ⟨k₀, v₀⟩ := hd
    simp only [List.map_cons, List.mem_cons] at h
    push_neg at h
    rw [lookupKV, if_neg (fun hc : k₀ = k => h.1 hc.symm)]
    exact ih h.2

lemma mem_keys_of_lookupKV_isSome (m : SMap) (k : String)
    (h : (lookupKV m k).isSome) : k ∈ m.map Prod.fst := by
  induction m with
  | nil => simp [lookupKV] at h
  | cons hd rest ih =>
    obtain ⟨k₀, v₀⟩ := hd
    by_cases h₀ : k₀ = k
    · simp [h₀]
    · simp only [lookupKV, if_neg h₀] at h
      simp [ih h]

lemma containsKey_eq_false_iff (m : SMap) (k : String) :
    containsKey m k = false ↔ k ∉ m.map Prod.fst := by
  constructor
  · intro h hmem
    induction m with
    | nil => simp at hmem
    | cons hd rest ih =>
      obtain ⟨k₀, v₀⟩ := hd
      simp only [List.map_cons, List.mem_cons] at hmem
      rcases hmem with h₀ | h₀
      · simp [containsKey, lookupKV, h₀.symm] at h
      · apply ih _ h₀
        by_cases hk : k₀ = k
        · simp [containsKey, lookupKV, hk] at h
        · simpa [containsKey, lookupKV, hk] using h
  · intro h
    simp [containsKey, lookupKV_eq_none_of_not_mem_keys m k h]

lemma mem_keys_insertKV (m : SMap) (k : String) (v : Value) (a : String) :
    a ∈ (insertKV m k v).map Prod.fst ↔ a = k ∨ a ∈ m.map Prod.fst := by
  induction m with
  | nil => simp [insertKV]
  | cons hd rest ih =>
    obtain ⟨k₀, v₀⟩ := hd
    by_cases h₀ : k₀ = k
    · subst h₀
      rw [insertKV, if_pos rfl]
      simp only [List.map_cons, List.mem_cons]
      tauto
    · rw [insertKV, if_neg h₀]
      simp only [List.map_cons, List.mem_cons, ih]
      tauto

lemma nodupKeys_insertKV (m : SMap) (k : String) (v : Value)
    (h : (m.map Prod.fst).Nodup) : ((insertKV m k v).map Prod.fst).Nodup := by
  induction m with
  | nil => simp [insertKV]
  | cons hd rest ih =>
    obtain ⟨k₀, v₀⟩ := hd
    rw [List.map_cons, List.nodup_cons] at h
    by_cases h₀ : k₀ = k
    · subst h₀
      rw [insertKV, if_pos rfl, List.map_cons, List.nodup_cons]
      exact h
    · rw [insertKV, if_neg h₀, List.map_cons, List.nodup_cons]
      refine ⟨?_, ih h.2⟩
      rw [mem_keys_insertKV]
      rintro (rfl | hmem)
      · exact h₀ rfl
      · exact h.1 hmem

lemma containsKey_insertKV (m : SMap) (k : String) (v : Value) (a : String) :
    containsKey (insertKV m k v) a = (a = k || containsKey m a) := by
  by_cases h : a = k
  · subst h
    simp [containsKey, lookupKV_insertKV_self]
  · rw [containsKey, lookupKV_insertKV_ne m k v a (fun hc => h hc.symm)]
    simp [containsKey, h]

/-! ## Lemmas about `mergeAbsent` -/

lemma mergeAbsent_lookup_mem (fs : SMap) (acc : SMap) (k : String)
    (h : containsKey acc k = true) :
    lookupKV (mergeAbsent acc fs) k = lookupKV acc k := by
  induction fs generalizing acc with
  | nil => rfl
  | cons hd rest ih =>
    obtain ⟨k₀, v₀⟩ := hd
    rw [mergeAbsent]
    by_cases h₀ : containsKey acc k₀
    · rw [if_pos h₀]
      exact ih acc h
    · rw [if_neg h₀]
      have hne : k₀ ≠ k := fun hc => h₀ (hc ▸ h)
      rw [ih _ (by simp [containsKey_insertKV, h]),
        lookupKV_insertKV_ne acc k₀ v₀ k hne]

lemma nodupKeys_mergeAbsent (fs : SMap) (acc : SMap)
    (h : (acc.map Prod.fst).Nodup) :
    ((mergeAbsent acc fs).map Prod.fst).Nodup := by
  induction fs generalizing acc with
  | nil => exact h
  | cons hd rest ih =>
    obtain ⟨k₀, v₀⟩ := hd
    rw [mergeAbsent]
    by_cases h₀ : containsKey acc k₀ <;>
      simp only [h₀, if_pos, if_neg, Bool.false_eq_true, reduceIte]
    · exact ih acc h
    · exact ih _ (nodupKeys_insertKV acc k₀ v₀ h)

lemma mergeAbsent_lookup_not_mem (fs : SMap) (acc : SMap) (k : String)
    (hacc : containsKey acc k = false) (hfs : (fs.map Prod.fst).Nodup) :
    lookupKV (mergeAbsent acc fs) k = lookupKV fs k := by
  induction fs generalizing acc with
  | nil =>
    rw [containsKey_eq_false_iff] at hacc
    simp [mergeAbsent, lookupKV, lookupKV_eq_none_of_not_mem_keys acc k hacc]
  | cons hd rest ih =>
    obtain ⟨k₀, v₀⟩ := hd
    simp only [List.map_cons, List.nodup_cons] at hfs
    rw [mergeAbsent]
    by_cases h₀ : k₀ = k
    · subst h₀
      rw [if_neg (by simp [hacc]), lookupKV]
      rw [mergeAbsent_lookup_mem rest _ k₀ (by simp [containsKey_insertKV])]
      simp [lookupKV_insertKV_self]
    · have hstep : ∀ acc' : SMap, containsKey acc' k = false →
          lookupKV (mergeAbsent acc' rest) k = lookupKV ((k₀, v₀) :: rest) k := by
        intro acc' h'
        rw [ih acc' h' hfs.2, lookupKV, if_neg h₀]
      by_cases hc : containsKey acc k₀
      · rw [if_pos hc]
        exact hstep acc hacc
      · rw [if_neg hc]
        refine hstep _ ?_
        have hne : ¬(k = k₀) := fun hc => h₀ hc.symm
        simp [containsKey_insertKV, hacc, hne]

/-! ## Structural lemmas about the engine -/

lemma nodupKeys_stepField (tag : String) (acc : SMap) (f : Field)
    (h : (acc.map Prod.fst).Nodup) :
    ((stepField tag acc f).map Prod.fst).Nodup := by
  obtain ⟨ex, an, tags, fk, v⟩ := f
  simp only [stepField]
  repeat' split
  all_goals
    first
      | exact h
      | exact nodupKeys_mergeAbsent _ _ h
      | exact nodupKeys_insertKV _ _ _ h

lemma nodupKeys_filterStructFields (tag : String) (fs : List Field) (acc : SMap)
    (h : (acc.map Prod.fst).Nodup) :
    ((filterStructFields tag fs acc).map Prod.fst).Nodup := by
  induction fs generalizing acc with
  | nil => simpa [filterStructFields] using h
  | cons f rest ih =>
    simp only [filterStructFields]
    exact ih _ (nodupKeys_stepField tag acc f h)

lemma filterStructFields_append (tag : String) (xs ys : List Field) (acc : SMap) :
    filterStructFields tag (xs ++ ys) acc =
      filterStructFields tag ys (filterStructFields tag xs acc) := by
  induction xs generalizing acc with
  | nil => simp [filterStructFields]
  | cons f rest ih =>
    simp only [List.cons_append, filterStructFields]
    exact ih _

lemma keys_filterMap_subset (m : SMap) (a : String)
    (h : a ∈ (filterMap m).map Prod.fst) : a ∈ m.map Prod.fst := by
  induction m with
  | nil => simp [filterMap] at h
  | cons hd rest ih =>
    obtain ⟨k, v⟩ := hd
    rw [List.map_cons, List.mem_cons]
    cases v <;> simp only [filterMap] at h <;> try split at h
    all_goals
      first
        | exact Or.inr (ih h)
        | (rw [List.map_cons, List.mem_cons] at h
           rcases h with h' | h'
           · exact Or.inl h'
           · exact Or.inr (ih h'))

lemma lookupKV_filterMap_cons_ne (k₀ : String) (v₀ : Value) (rest : SMap)
    (k : String) (hne : k₀ ≠ k) :
    lookupKV (filterMap ((k₀, v₀) :: rest)) k = lookupKV (filterMap rest) k := by
  cases v₀ <;> simp only [filterMap] <;> try split
  all_goals simp [lookupKV, hne]

lemma lookupKV_filterMap_nullVar (m : SMap) (k : String) (s va : Bool) (p : Value)
    (hnd : (m.map Prod.fst).Nodup) (hmem : (k, Value.vNullVar s va p) ∈ m) :
    lookupKV (filterMap m) k = if s then some (getVal s va p) else none := by
  induction m with
  | nil => simp at hmem
  | cons hd rest ih =>
    obtain ⟨k₀, v₀⟩ := hd
    rw [List.map_cons, List.nodup_cons] at hnd
    rcases List.mem_cons.mp hmem with heq | hmem'
    · have hk : k = k₀ := congrArg Prod.fst heq
      have hv : Value.vNullVar s va p = v₀ := congrArg Prod.snd heq
      subst hk
      subst hv
      by_cases hs : s
      · simp [filterMap, hs, lookupKV]
      · have hnot : k ∉ (filterMap rest).map Prod.fst :=
          fun hm => hnd.1 (keys_filterMap_subset rest k hm)
        simp [filterMap, hs, lookupKV_eq_none_of_not_mem_keys _ k hnot]
    · have hne : k₀ ≠ k := by
        rintro rfl
        exact hnd.1 (List.mem_map.mpr ⟨(k₀, Value.vNullVar s va p), hmem', rfl⟩)
      rw [lookupKV_filterMap_cons_ne k₀ v₀ rest k hne]
      exact ih hnd.2 hmem'

lemma filterMap_filterMap_of_flat (m : SMap) (hflat : containersFlat m = true) :
    filterMap (filterMap m) = filterMap m := by
  match m with
  | [] => simp [filterMap]
  | (k, v) :: rest =>
    cases v with
    | vNullVar s va p =>
      simp only [containersFlat, Bool.and_eq_true] at hflat
      have hrest := filterMap_filterMap_of_flat rest hflat.2
      by_cases hs : s
      · subst hs
        by_cases hva : va
        · subst hva
          have hp : flatPayload p = true := by simpa using hflat.1
          simp only [filterMap, getVal, Bool.not_true, Bool.or_self,
            Bool.false_eq_true, reduceIte]
          cases p <;> simp [flatPayload] at hp <;> simp [filterMap, hrest]
        · simp [filterMap, getVal, hva, hrest]
      · simp [filterMap, hs, hrest]
    | vMap mm =>
      simp only [containersFlat, Bool.and_eq_true] at hflat
      have hrest := filterMap_filterMap_of_flat rest hflat.2
      have hmm := filterMap_filterMap_of_flat mm hflat.1
      by_cases he : (filterMap mm).isEmpty
      · simp [filterMap, he, hrest]
      · simp [filterMap, he, hmm, hrest]
    | vNull =>
      simp only [containersFlat, Bool.and_eq_true] at hflat
      simp [filterMap, filterMap_filterMap_of_flat rest hflat.2]
    | vStr a =>
      simp only [containersFlat, Bool.and_eq_true] at hflat
      simp [filterMap, filterMap_filterMap_of_flat rest hflat.2]
    | vInt a =>
      simp only [containersFlat, Bool.and_eq_true] at hflat
      simp [filterMap, filterMap_filterMap_of_flat rest hflat.2]
    | vBool a =>
      simp only [containersFlat, Bool.and_eq_true] at hflat
      simp [filterMap, filterMap_filterMap_of_flat rest hflat.2]
    | vOther a =>
      simp only [containersFlat, Bool.and_eq_true] at hflat
      simp [filterMap, filterMap_filterMap_of_flat rest hflat.2]
    | vOtherMap a =>
      simp only [containersFlat, Bool.and_eq_true] at hflat
      simp [filterMap, filterMap_filterMap_of_flat rest hflat.2]
    | vStruct a b =>
      simp only [containersFlat, Bool.and_eq_true] at hflat
      simp [filterMap, filterMap_filterMap_of_flat rest hflat.2]
termination_by sizeOf m

/-! ## The claims -/

/-- C1: a tri-state container entry reached by filtering (a map entry handed
to `FilterMap`, or an exported struct field carrying the configured tag with
a key that is neither empty nor `-`) appears in the output exactly when its
`set` flag is true, and then carries the container's effective value: the
payload when valid, the explicit `nil` when set-but-invalid.  For the struct
part, "that entry's key" is pinned to the field by requiring that no other
field of the record writes the same key (earlier fields do not emit it and
later fields preserve its binding). -/
theorem filter_tristate_entry_semantics :
    (∀ (m : SMap) (k : String) (s va : Bool) (p : Value),
      (m.map Prod.fst).Nodup → (k, Value.vNullVar s va p) ∈ m →
      lookupKV (filterMap m) k = if s then some (getVal s va p) else none)
    ∧
    (∀ (tag : String) (before after : List Field) (an : Bool)
        (tags : List (String × String)) (tg k : String) (s va : Bool) (p : Value),
      tagLookup tags tag = some tg → headSplit tg = k → k ≠ "" → k ≠ "-" →
      containsKey (filterStructFields tag before []) k = false →
      (∀ acc : SMap, lookupKV (filterStructFields tag after acc) k = lookupKV acc k) →
      lookupKV (filterStructFields tag
          (before ++ Field.mk true an tags FKind.kStruct (Value.vNullVar s va p)
            :: after) []) k =
        if s then some (getVal s va p) else none) := by
  constructor
  · exact fun m k s va p hnd hmem => lookupKV_filterMap_nullVar m k s va p hnd hmem
  · intro tag before after an tags tg k s va p htag hhead hne hdash hbefore hafter
    have hstep :
        stepField tag (filterStructFields tag before [])
            (Field.mk true an tags FKind.kStruct (Value.vNullVar s va p)) =
          if s then insertKV (filterStructFields tag before []) k (getVal s va p)
          else filterStructFields tag before [] := by
      simp [stepField, htag, hhead, hne, hdash]
    rw [filterStructFields_append, filterStructFields, hstep]
    by_cases hs : s
    · rw [if_pos hs, hafter _, lookupKV_insertKV_self, if_pos hs]
    · rw [if_neg hs, hafter _, if_neg hs,
        lookupKV_eq_none_of_not_mem_keys _ k
          ((containsKey_eq_false_iff _ k).mp hbefore)]

/-- Witness for C1 at concrete inputs: a set-but-invalid container in a map
survives as an explicit `nil`, and a set-but-invalid tagged container field
of a struct survives under its tag key as an explicit `nil`. -/
theorem filter_tristate_entry_semantics_witness :
    (lookupKV (filterMap [("a", Value.vNullVar true false (Value.vStr "x"))]) "a" =
      if true then some (getVal true false (Value.vStr "x")) else none)
    ∧
    (lookupKV (filterStructFields "json"
        ([] ++ Field.mk true false [("json", "a")] FKind.kStruct
          (Value.vNullVar true false Value.vNull) :: []) []) "a" =
      if true then some (getVal true false Value.vNull) else none) :=
  ⟨filter_tristate_entry_semantics.1
      [("a", Value.vNullVar true false (Value.vStr "x"))] "a" true false
      (Value.vStr "x") (by simp) (by simp),
    filter_tristate_entry_semantics.2 "json" [] [] false [("json", "a")] "a" "a"
      true false Value.vNull (by simp [tagLookup]) (by rfl)
      (by decide) (by decide) (by simp [filterStructFields, containsKey, lookupKV])
      (fun acc => by simp [filterStructFields])⟩

/-- C10: an embedded (anonymous) exported tri-state container field with no
tag entry under the configured tag name is not skipped — its declared kind is
`reflect.Struct`, so the embedded-non-struct skip rule does not apply — and,
when the container is set, its effective value is written under the
empty-string key `""`; when unset, nothing is written. -/
theorem embedded_nullvar_empty_key
    (tag : String) (acc : SMap) (tags : List (String × String))
    (s va : Bool) (p : Value)
    (htag : tagLookup tags tag = none) :
    stepField tag acc (Field.mk true true tags FKind.kStruct (Value.vNullVar s va p)) =
      if s then insertKV acc "" (getVal s va p) else acc := by
  simp [stepField, htag, headSplit, headSplitAux]

/-- Witness for C10: a struct whose only field is an embedded untagged set
container produces the single entry with key `""` through `FilterStruct`. -/
theorem embedded_nullvar_empty_key_witness :
    stepField "json" []
        (Field.mk true true [] FKind.kStruct
          (Value.vNullVar true true (Value.vStr "x"))) =
      if true then insertKV [] "" (getVal true true (Value.vStr "x")) else [] :=
  embedded_nullvar_empty_key "json" [] [] true true (Value.vStr "x") rfl

/-- C5: a recursively-filterable (Filterable) struct field emitted under its
own non-empty key contributes nothing to the parent's output when its
recursive filtering is empty, and a nested `map[string]any` entry whose
recursive filtering is empty is omitted from `filterMap`'s output. -/
theorem empty_nested_results_omitted :
    (∀ (tag : String) (acc : SMap) (ex an : Bool)
        (tags : List (String × String)) (inner : List Field),
      headSplit ((tagLookup tags tag).getD "") ≠ "" →
      filterStructFields tag inner [] = [] →
      stepField tag acc
          (Field.mk ex an tags FKind.kStruct (Value.vStruct true inner)) = acc)
    ∧
    (∀ (m : SMap) (k : String) (mm : SMap),
      (m.map Prod.fst).Nodup → (k, Value.vMap mm) ∈ m → filterMap mm = [] →
      containsKey (filterMap m) k = false) := by
  constructor
  · intro tag acc ex an tags inner hname hempty
    simp [stepField, hempty, mergeAbsent]
  · intro m k mm hnd hmem hempty
    induction m with
    | nil => simp at hmem
    | cons hd rest ih =>
      obtain ⟨k₀, v₀⟩ := hd
      rw [List.map_cons, List.nodup_cons] at hnd
      rcases List.mem_cons.mp hmem with heq | hmem'
      · have hk : k = k₀ := congrArg Prod.fst heq
        have hv : Value.vMap mm = v₀ := congrArg Prod.snd heq
        subst hk
        subst hv
        simp only [filterMap, hempty, List.isEmpty_nil, if_pos, reduceIte]
        rw [containsKey_eq_false_iff]
        exact fun hm => hnd.1 (keys_filterMap_subset rest k hm)
      · have hne : k₀ ≠ k := by
          rintro rfl
          exact hnd.1 (List.mem_map.mpr ⟨(k₀, Value.vMap mm), hmem', rfl⟩)
        simp only [containsKey] at ih ⊢
        rw [lookupKV_filterMap_cons_ne k₀ v₀ rest k hne]
        exact ih hnd.2 hmem'

/-- Witness for C5: a keyed Filterable field whose two container sub-fields
are unset contributes nothing, and a nested mapping holding only an unset
container is dropped from the map output. -/
theorem empty_nested_results_omitted_witness :
    (stepField "json" [("z", Value.vStr "q")]
        (Field.mk true false [("json", "s")] FKind.kStruct
          (Value.vStruct true
            [Field.mk true false [("json", "c")] FKind.kStruct
              (Value.vNullVar false false Value.vNull)])) =
      [("z", Value.vStr "q")])
    ∧
    (containsKey
        (filterMap [("k", Value.vMap [("j", Value.vNullVar false false Value.vNull)]),
          ("d", Value.vStr "D")]) "k" = false) :=
  ⟨empty_nested_results_omitted.1 "json" [("z", Value.vStr "q")] true false
      [("json", "s")]
      [Field.mk true false [("json", "c")] FKind.kStruct
        (Value.vNullVar false false Value.vNull)]
      (by decide)
      (by simp [filterStructFields, stepField, tagLookup, headSplit, headSplitAux]),
    empty_nested_results_omitted.2
      [("k", Value.vMap [("j", Value.vNullVar false false Value.vNull)]),
        ("d", Value.vStr "D")] "k"
      [("j", Value.vNullVar false false Value.vNull)]
      (by simp) (by simp) (by simp [filterMap])⟩

/-- C2: an embedded (anonymous) Filterable struct field with no explicit tag
key has its recursively filtered entries merged directly into the parent's
output at top level, and the merge never overwrites a key already produced
by the earlier-declared fields: at a key the earlier fields produced, the
output binding is the earlier fields' binding; at any other key it is the
embedded record's own filtered binding. -/
theorem embedded_merge_first_writer_wins
    (tag : String) (before : List Field) (tags : List (String × String))
    (inner : List Field) (k : String)
    (hname : headSplit ((tagLookup tags tag).getD "") = "") :
    (containsKey (filterStructFields tag before []) k = true →
      lookupKV (filterStructFields tag
          (before ++ [Field.mk true true tags FKind.kStruct (Value.vStruct true inner)]) []) k =
        lookupKV (filterStructFields tag before []) k)
    ∧
    (containsKey (filterStructFields tag before []) k = false →
      lookupKV (filterStructFields tag
          (before ++ [Field.mk true true tags FKind.kStruct (Value.vStruct true inner)]) []) k =
        lookupKV (filterStructFields tag inner []) k) := by
  have hstep :
      filterStructFields tag
          (before ++ [Field.mk true true tags FKind.kStruct (Value.vStruct true inner)]) [] =
        mergeAbsent (filterStructFields tag before [])
          (filterStructFields tag inner []) := by
    rw [filterStructFields_append, filterStructFields, filterStructFields]
    simp [stepField, hname]
  rw [hstep]
  constructor
  · intro hmem
    exact mergeAbsent_lookup_mem _ _ k hmem
  · intro hnot
    exact mergeAbsent_lookup_not_mem _ _ k hnot
      (nodupKeys_filterStructFields tag inner [] (by simp))

/-- Witness for C2 at a concrete record: the parent declares key `a` before
an embedded Filterable record that also declares `a` and additionally `b`;
the output keeps the parent's `a` and receives the embedded record's `b`. -/
theorem embedded_merge_first_writer_wins_witness :
    (lookupKV (filterStructFields "json"
        ([Field.mk true false [("json", "a")] FKind.kOther (Value.vStr "outer")] ++
          [Field.mk true true [] FKind.kStruct (Value.vStruct true
            [Field.mk true false [("json", "a")] FKind.kOther (Value.vStr "inner"),
              Field.mk true false [("json", "b")] FKind.kOther (Value.vStr "binner")])]) []) "a" =
      lookupKV (filterStructFields "json"
        [Field.mk true false [("json", "a")] FKind.kOther (Value.vStr "outer")] []) "a")
    ∧
    (lookupKV (filterStructFields "json"
        ([Field.mk true false [("json", "a")] FKind.kOther (Value.vStr "outer")] ++
          [Field.mk true true [] FKind.kStruct (Value.vStruct true
            [Field.mk true false [("json", "a")] FKind.kOther (Value.vStr "inner"),
              Field.mk true false [("json", "b")] FKind.kOther (Value.vStr "binner")])]) []) "b" =
      lookupKV (filterStructFields "json"
        [Field.mk true false [("json", "a")] FKind.kOther (Value.vStr "inner"),
          Field.mk true false [("json", "b")] FKind.kOther (Value.vStr "binner")] []) "b") :=
  ⟨(embedded_merge_first_writer_wins "json"
      [Field.mk true false [("json", "a")] FKind.kOther (Value.vStr "outer")] []
      [Field.mk true false [("json", "a")] FKind.kOther (Value.vStr "inner"),
        Field.mk true false [("json", "b")] FKind.kOther (Value.vStr "binner")]
      "a" rfl).1
      (by simp [filterStructFields, stepField, tagLookup, headSplit, headSplitAux,
        insertKV, containsKey, lookupKV]),
    (embedded_merge_first_writer_wins "json"
      [Field.mk true false [("json", "a")] FKind.kOther (Value.vStr "outer")] []
      [Field.mk true false [("json", "a")] FKind.kOther (Value.vStr "inner"),
        Field.mk true false [("json", "b")] FKind.kOther (Value.vStr "binner")]
      "b" rfl).2
      (by simp [filterStructFields, stepField, tagLookup, headSplit, headSplitAux,
        insertKV, containsKey, lookupKV])⟩

/-- C3: `FilterStruct` fails with `NilInput` exactly on the absent input and
with `NotARecord` exactly on inputs whose runtime kind is not a struct;
`FilterMap` fails with `NilInput` exactly on the nil map; in every other
case both succeed with a mapping, the validation happening before any
output is produced. -/
theorem filter_entry_error_conditions :
    (∀ opts, FilterStruct none opts = .error .nilInput)
    ∧ (∀ (v : Value) opts, v.kind ≠ FKind.kStruct →
        FilterStruct (some v) opts = .error .notAStruct)
    ∧ (∀ (v : Value) opts, v.kind = FKind.kStruct →
        ∃ r, FilterStruct (some v) opts = .ok r)
    ∧ (FilterMap none = .error .nilInput)
    ∧ (∀ m, FilterMap (some m) = .ok (filterMap m)) := by
  refine ⟨fun opts => rfl, ?_, ?_, rfl, fun m => rfl⟩
  · intro v opts h
    simp [FilterStruct, h]
  · intro v opts h
    exact ⟨filterStruct (applyOpts opts).tag v, by simp [FilterStruct, h]⟩

/-- Witness for C3: a non-struct input is rejected, a struct input accepted. -/
theorem filter_entry_error_conditions_witness :
    FilterStruct (some (Value.vInt 1)) [] = .error .notAStruct
    ∧ ∃ r, FilterStruct (some (Value.vStruct false [])) [] = .ok r :=
  ⟨filter_entry_error_conditions.2.1 (Value.vInt 1) [] (by decide),
    filter_entry_error_conditions.2.2.1 (Value.vStruct false []) [] rfl⟩

/-- C6 counterexample: under `UseTag "custom"`, a struct whose only field
carries no tag entry under `custom` (it carries only the default `json` tag)
still contributes a key to the output — the field is embedded, and embedded
fields are exempt from the tag requirement — refuting the claim that any
field lacking a tag entry under the custom name contributes no key. -/
theorem useTag_untagged_field_contributes_cex :
    FilterStruct (some (Value.vStruct false
        [Field.mk true true [("json", "x")] FKind.kStruct
          (Value.vNullVar true true (Value.vStr "v"))])) [UseTag "custom"] =
      .ok [("", Value.vStr "v")]
    ∧ tagLookup [("json", "x")] "custom" = none := by
  constructor
  · simp [FilterStruct, filterStruct, filterStructFields, stepField, tagLookup,
      headSplit, headSplitAux, insertKV, getVal, UseTag, applyOpts,
      defaultFilterOpts, Value.kind]
  · rfl

/-- C6 (amended): under a custom tag name, a non-embedded field lacking a
tag entry under that name contributes nothing to the output, even if it
carries the default `json` tag (embedded fields are exempt from the tag
requirement); and `UseTag ""` is the identity option, so filtering with it
uses the default `json` tag. -/
theorem useTag_restriction_amended :
    (∀ (tag : String) (acc : SMap) (f : Field),
      f.anonymous = false → tagLookup f.tags tag = none →
      stepField tag acc f = acc)
    ∧ (∀ fOpts : FilterOpts, UseTag "" fOpts = fOpts)
    ∧ (∀ (s : Option Value) (opts : List (FilterOpts → FilterOpts)),
        FilterStruct s (UseTag "" :: opts) = FilterStruct s opts) := by
  refine ⟨?_, ?_, ?_⟩
  · intro tag acc f han htag
    obtain ⟨ex, an, tags, fk, v⟩ := f
    rw [Field.anonymous] at han
    rw [Field.tags] at htag
    subst han
    simp [stepField, htag]
  · intro fOpts
    simp [UseTag]
  · intro s opts
    simp [FilterStruct, applyOpts, UseTag]

/-- Witness for C6 (amended): a non-embedded `json`-tagged field contributes
nothing under tag name `custom`, and prepending `UseTag ""` changes nothing. -/
theorem useTag_restriction_amended_witness :
    stepField "custom" []
        (Field.mk true false [("json", "a")] FKind.kOther (Value.vStr "v")) = []
    ∧ FilterStruct (some (Value.vStruct false [])) (UseTag "" :: []) =
        FilterStruct (some (Value.vStruct false [])) [] :=
  ⟨useTag_restriction_amended.1 "custom" []
      (Field.mk true false [("json", "a")] FKind.kOther (Value.vStr "v")) rfl rfl,
    useTag_restriction_amended.2.2 (some (Value.vStruct false [])) []⟩

/-- C4 counterexample: map filtering is not idempotent in general.  A set and
valid container whose payload is itself an unset container is unwrapped by
the first pass, leaving a container in the output that the second pass then
removes. -/
theorem filterMap_not_idempotent_cex :
    filterMap (filterMap
        [("k", Value.vNullVar true true (Value.vNullVar false false Value.vNull))]) ≠
      filterMap
        [("k", Value.vNullVar true true (Value.vNullVar false false Value.vNull))] := by
  intro h
  have h1 : filterMap (filterMap
      [("k", Value.vNullVar true true (Value.vNullVar false false Value.vNull))]) =
      [] := by
    simp [filterMap, getVal]
  have h2 : filterMap
      [("k", Value.vNullVar true true (Value.vNullVar false false Value.vNull))] =
      [("k", Value.vNullVar false false Value.vNull)] := by
    simp [filterMap, getVal]
  rw [h1, h2] at h
  exact List.noConfusion h

/-- C4 (amended): map filtering is idempotent on every mapping in which no
set-and-valid container's payload is itself a container or a
`map[string]any` — then the output contains no containers and no empty
nested mappings, so a second pass changes nothing.  In general the effective
value of a set container may itself be a container or a mapping, and such
outputs need not be fixed points. -/
theorem filterMap_idempotent_flat (m : SMap) (hflat : containersFlat m = true) :
    filterMap (filterMap m) = filterMap m :=
  filterMap_filterMap_of_flat m hflat

/-- Witness for C4 (amended) on a mapping with an explicit null, a scalar,
and a nested mapping holding a set container with scalar payload. -/
theorem filterMap_idempotent_flat_witness :
    filterMap (filterMap
        [("a", Value.vNullVar true false Value.vNull), ("b", Value.vStr "x"),
          ("c", Value.vMap [("d", Value.vNullVar true true (Value.vInt 3))])]) =
      filterMap
        [("a", Value.vNullVar true false Value.vNull), ("b", Value.vStr "x"),
          ("c", Value.vMap [("d", Value.vNullVar true true (Value.vInt 3))])] :=
  filterMap_idempotent_flat
    [("a", Value.vNullVar true false Value.vNull), ("b", Value.vStr "x"),
      ("c", Value.vMap [("d", Value.vNullVar true true (Value.vInt 3))])]
    (by simp [containersFlat, flatPayload])

/-- C7: every container operation, started from an arbitrary state, produces
a state satisfying the tri-state invariant: unset implies invalid with zero
payload, and set-but-invalid implies zero payload. -/
theorem var_ops_preserve_invariant {α β D E : Type} [Inhabited α] [DecidableEq D] :
    (∀ (v : Var α) (x : α), (v.Set x).invariant)
    ∧ (∀ v : Var α, v.Unset.invariant)
    ∧ (∀ v : Var α, v.SetNil.invariant)
    ∧ (∀ (nullB : D) (dec : D → Except E α) (v : Var α) (data : D),
        (Var.UnmarshalJSON nullB dec v data).1.invariant)
    ∧ (∀ (convertAssign : β → Except E α) (v : Var α) (src : Option β),
        (Var.Scan convertAssign v src).1.invariant) := by
  refine ⟨?_, ?_, ?_, ?_, ?_⟩
  · intro v x
    simp [Var.Set, Var.invariant]
  · intro v
    simp [Var.Unset, Var.invariant]
  · intro v
    simp [Var.SetNil, Var.invariant]
  · intro nullB dec v data
    rw [Var.UnmarshalJSON]
    split
    · simp [Var.invariant]
    · split <;> simp [Var.invariant]
  · intro conv v src
    cases src with
    | none => simp [Var.Scan, Var.invariant]
    | some s => cases hc : conv s <;> simp [Var.Scan, hc, Var.invariant]

/-- C8 counterexample: it is not true that `MarshalJSON` returns the null
literal only when the container is unset or invalid — a set and valid
container whose payload itself encodes to the null literal (a nil `*int`
payload) also returns it. -/
theorem marshal_null_iff_cex :
    ¬ (∀ v : Var (Option Int),
        Var.MarshalJSON encOptInt "null" v = "null" →
          v.set = false ∨ v.valid = false) := by
  intro h
  rcases h (Var.mk true true none) rfl with h' | h' <;> simp at h'

/-- C8 (amended): `MarshalJSON` returns the null literal whenever the
container is unset or invalid, and otherwise returns the encoding of the
payload (which may itself coincide with the null literal); `UnmarshalJSON`
always marks the container set, resets the payload and marks it invalid on
the null literal, and otherwise marks it valid and decodes into the payload,
propagating a decode failure as the operation's error. -/
theorem marshal_unmarshal_contract_amended {α D E : Type} [Inhabited α]
    [DecidableEq D] :
    (∀ (enc : α → D) (nullB : D) (v : Var α),
      v.set = false ∨ v.valid = false → Var.MarshalJSON enc nullB v = nullB)
    ∧ (∀ (enc : α → D) (nullB : D) (v : Var α),
      v.set = true → v.valid = true → Var.MarshalJSON enc nullB v = enc v.value)
    ∧ (∀ (nullB : D) (dec : D → Except E α) (v : Var α) (data : D),
        (Var.UnmarshalJSON nullB dec v data).1.set = true
        ∧ (data = nullB →
            Var.UnmarshalJSON nullB dec v data = (Var.mk true false default, none))
        ∧ (∀ x, data ≠ nullB → dec data = .ok x →
            Var.UnmarshalJSON nullB dec v data = (Var.mk true true x, none))
        ∧ (∀ e, data ≠ nullB → dec data = .error e →
            (Var.UnmarshalJSON nullB dec v data).1.valid = true
            ∧ (Var.UnmarshalJSON nullB dec v data).2 = some e)) := by
  refine ⟨?_, ?_, ?_⟩
  · intro enc nullB v h
    rcases h with h | h <;> simp [Var.MarshalJSON, h]
  · intro enc nullB v hs hv
    simp [Var.MarshalJSON, hs, hv]
  · intro nullB dec v data
    refine ⟨?_, ?_, ?_, ?_⟩
    · rw [Var.UnmarshalJSON]
      split
      · rfl
      · split <;> rfl
    · intro h
      simp [Var.UnmarshalJSON, h]
    · intro x h hdec
      simp [Var.UnmarshalJSON, h, hdec]
    · intro e h hdec
      simp [Var.UnmarshalJSON, h, hdec]

/-- Witness for C8 (amended) with an integer payload and a string wire
format: an unset container marshals to the null literal, a set and valid one
marshals to its encoded payload, and unmarshalling the null literal resets
the container to the explicit-null state. -/
theorem marshal_unmarshal_contract_amended_witness :
    Var.MarshalJSON (fun n : Int => toString n) "null" (Var.mk false false 0) = "null"
    ∧ Var.MarshalJSON (fun n : Int => toString n) "null" (Var.mk true true 5) =
        toString (5 : Int)
    ∧ Var.UnmarshalJSON "null"
        (fun s => if s = "7" then Except.ok (7 : Int) else Except.error "bad")
        (Var.mk true true 5) "null" = (Var.mk true false default, none)
    ∧ Var.UnmarshalJSON "null"
        (fun s => if s = "7" then Except.ok (7 : Int) else Except.error "bad")
        (Var.mk false false 0) "7" = (Var.mk true true 7, none) :=
  ⟨(@marshal_unmarshal_contract_amended Int String String _ _).1
      (fun n : Int => toString n) "null" (Var.mk false false 0) (Or.inl rfl),
    (@marshal_unmarshal_contract_amended Int String String _ _).2.1
      (fun n : Int => toString n) "null" (Var.mk true true 5) rfl rfl,
    ((@marshal_unmarshal_contract_amended Int String String _ _).2.2 "null"
      (fun s => if s = "7" then Except.ok (7 : Int) else Except.error "bad")
      (Var.mk true true 5) "null").2.1 rfl,
    ((@marshal_unmarshal_contract_amended Int String String _ _).2.2 "null"
      (fun s => if s = "7" then Except.ok (7 : Int) else Except.error "bad")
      (Var.mk false false 0) "7").2.2.1 7 (by decide) (by simp)⟩

lemma filterMapFuel_eq : ∀ (fuel : Nat) (m : SMap), sizeOf m ≤ fuel →
    filterMapFuel fuel m = some (filterMap m) := by
  intro fuel
  induction fuel with
  | zero =>
    intro m hm
    exfalso
    cases m <;> simp at hm
  | succ fuel ih =>
    intro m hm
    match m with
    | [] => simp [filterMapFuel, filterMap]
    | (k, v) :: rest =>
      cases v with
      | vNullVar s va p =>
        have hrest : sizeOf rest ≤ fuel := by simp at hm; omega
        simp [filterMapFuel, filterMap, ih rest hrest, apply_ite]
      | vMap mm =>
        have hrest : sizeOf rest ≤ fuel := by simp at hm; omega
        have hmm : sizeOf mm ≤ fuel := by simp at hm; omega
        simp [filterMapFuel, filterMap, ih rest hrest, ih mm hmm, apply_ite,
          List.isEmpty_iff]
        split
        · exact List.isEmpty_iff.mp (by assumption)
        · simpa [List.isEmpty_iff] using (by assumption : ¬List.isEmpty (filterMap mm) = true)
      | vNull =>
        have hrest : sizeOf rest ≤ fuel := by simp at hm; omega
        simp [filterMapFuel, filterMap, ih rest hrest]
      | vStr a =>
        have hrest : sizeOf rest ≤ fuel := by simp at hm; omega
        simp [filterMapFuel, filterMap, ih rest hrest]
      | vInt a =>
        have hrest : sizeOf rest ≤ fuel := by simp at hm; omega
        simp [filterMapFuel, filterMap, ih rest hrest]
      | vBool a =>
        have hrest : sizeOf rest ≤ fuel := by simp at hm; omega
        simp [filterMapFuel, filterMap, ih rest hrest]
      | vOther a =>
        have hrest : sizeOf rest ≤ fuel := by simp at hm; omega
        simp [filterMapFuel, filterMap, ih rest hrest]
      | vOtherMap a =>
        have hrest : sizeOf rest ≤ fuel := by simp at hm; omega
        simp [filterMapFuel, filterMap, ih rest hrest]
      | vStruct a b =>
        have hrest : sizeOf rest ≤ fuel := by simp at hm; omega
        simp [filterMapFuel, filterMap, ih rest hrest]

lemma filterStructFuel_eq : ∀ fuel : Nat,
    (∀ (tag : String) (fs : List Field) (acc : SMap), sizeOf fs ≤ fuel →
      filterStructFieldsFuel fuel tag fs acc = some (filterStructFields tag fs acc))
    ∧ (∀ (tag : String) (acc : SMap) (f : Field), sizeOf f ≤ fuel →
      stepFieldFuel fuel tag acc f = some (stepField tag acc f)) := by
  intro fuel
  induction fuel with
  | zero =>
    constructor
    · intro tag fs acc h
      exfalso
      cases fs <;> simp at h
    · intro tag acc f h
      exfalso
      obtain ⟨ex, an, tags, fk, v⟩ := f
      simp at h
  | succ fuel ih =>
    constructor
    · intro tag fs acc h
      match fs with
      | [] => simp [filterStructFieldsFuel, filterStructFields]
      | f :: rest =>
        have hf : sizeOf f ≤ fuel := by simp at h; omega
        have hrest : sizeOf rest ≤ fuel := by simp at h; omega
        rw [filterStructFields]
        simp only [filterStructFieldsFuel, ih.2 tag acc f hf, Option.some_bind]
        exact ih.1 tag rest _ hrest
    · intro tag acc f h
      obtain ⟨ex, an, tags, fk, v⟩ := f
      cases fk with
      | kStruct =>
        cases v with
        | vStruct filt inner =>
          cases filt with
          | true =>
            have hinner : sizeOf inner ≤ fuel := by simp at h; omega
            simp only [stepFieldFuel, stepField, ih.1 tag inner [] hinner,
              Option.map_some']
            repeat' split
            all_goals rfl
          | false =>
            simp only [stepFieldFuel, stepField]
            repeat' split
            all_goals rfl
        | vNullVar s va p =>
          simp only [stepFieldFuel, stepField]
          repeat' split
          all_goals rfl
        | vNull =>
          simp only [stepFieldFuel, stepField]
          repeat' split
          all_goals rfl
        | vStr a =>
          simp only [stepFieldFuel, stepField]
          repeat' split
          all_goals rfl
        | vInt a =>
          simp only [stepFieldFuel, stepField]
          repeat' split
          all_goals rfl
        | vBool a =>
          simp only [stepFieldFuel, stepField]
          repeat' split
          all_goals rfl
        | vOther a =>
          simp only [stepFieldFuel, stepField]
          repeat' split
          all_goals rfl
        | vOtherMap a =>
          simp only [stepFieldFuel, stepField]
          repeat' split
          all_goals rfl
        | vMap mm =>
          simp only [stepFieldFuel, stepField]
          repeat' split
          all_goals rfl
      | kMap =>
        cases v with
        | vMap mm =>
          have hmm : sizeOf mm ≤ fuel := by simp at h; omega
          simp only [stepFieldFuel, stepField, filterMapFuel_eq fuel mm hmm,
            Option.map_some']
          repeat' split
          all_goals rfl
        | vNull =>
          simp only [stepFieldFuel, stepField]
          repeat' split
          all_goals rfl
        | vStr a =>
          simp only [stepFieldFuel, stepField]
          repeat' split
          all_goals rfl
        | vInt a =>
          simp only [stepFieldFuel, stepField]
          repeat' split
          all_goals rfl
        | vBool a =>
          simp only [stepFieldFuel, stepField]
          repeat' split
          all_goals rfl
        | vOther a =>
          simp only [stepFieldFuel, stepField]
          repeat' split
          all_goals rfl
        | vOtherMap a =>
          simp only [stepFieldFuel, stepField]
          repeat' split
          all_goals rfl
        | vNullVar s va p =>
          simp only [stepFieldFuel, stepField]
          repeat' split
          all_goals rfl
        | vStruct filt inner =>
          simp only [stepFieldFuel, stepField]
          repeat' split
          all_goals rfl
      | kOther =>
        simp only [stepFieldFuel, stepField]
        repeat' split
        all_goals rfl

/-- C9: the recursive engine terminates on every finite input.  The
fuel-indexed variants of `filterMap` and of `filterStruct`'s mutually
recursive field loop, which consume one unit of fuel per recursive call and
fail on exhaustion, succeed and agree with the total functions as soon as
the fuel reaches the structural size of the input: every recursive call
descends strictly into a sub-entry or a sub-field, so the input's size
bounds the recursion. -/
theorem filter_recursion_terminates :
    (∀ (fuel : Nat) (m : SMap), sizeOf m ≤ fuel →
      filterMapFuel fuel m = some (filterMap m))
    ∧ (∀ (fuel : Nat) (tag : String) (fs : List Field) (acc : SMap),
        sizeOf fs ≤ fuel →
        filterStructFieldsFuel fuel tag fs acc = some (filterStructFields tag fs acc))
    ∧ (∀ (fuel : Nat) (tag : String) (acc : SMap) (f : Field), sizeOf f ≤ fuel →
        stepFieldFuel fuel tag acc f = some (stepField tag acc f)) :=
  ⟨fun fuel => filterMapFuel_eq fuel,
    fun fuel => (filterStructFuel_eq fuel).1,
    fun fuel => (filterStructFuel_eq fuel).2⟩

/-- Witness for C9 at concrete inputs with concrete fuel. -/
theorem filter_recursion_terminates_witness :
    filterMapFuel 1000 [("a", Value.vMap [("b", Value.vStr "x")])] =
      some (filterMap [("a", Value.vMap [("b", Value.vStr "x")])])
    ∧ filterStructFieldsFuel 1000 "json"
        [Field.mk true false [("json", "a")] FKind.kOther (Value.vStr "x")] [] =
      some (filterStructFields "json"
        [Field.mk true false [("json", "a")] FKind.kOther (Value.vStr "x")] []) :=
  ⟨filter_recursion_terminates.1 1000 [("a", Value.vMap [("b", Value.vStr "x")])]
      (by decide),
    filter_recursion_terminates.2.1 1000 "json"
      [Field.mk true false [("json", "a")] FKind.kOther (Value.vStr "x")] []
      (by decide)⟩

end GoNull
